import Mathlib

/-!
Verification of the reinforcement-learning framework
(reinforcement_learning.py) and the parameter-sweep splitter
(pspace_run.py).

Python dictionaries are modelled as insertion-ordered association lists:
lookup returns the first (unique) matching key, and writing to a key either
updates it in place or appends a fresh entry at the end, exactly as a Python
dict preserves insertion order.  Observations passed to an agent have type
Option Obs, with none standing for the terminal marker (Python None).
Rewards are rationals.  A Python runtime error (failed assert, IndexError,
AttributeError, choice from an empty list) is modelled as the result none.
-/

namespace RL

/-- Lookup in an insertion-ordered association list (Python dict read). -/
def lookupA {κ α : Type} [DecidableEq κ] : List (κ × α) → κ → Option α
  | [], _ => none
  | (k, v) :: rest, key => if k = key then some v else lookupA rest key

/-- Write to an insertion-ordered association list (Python dict write):
an existing key keeps its position, a fresh key is appended at the end. -/
def setA {κ α : Type} [DecidableEq κ] : List (κ × α) → κ → α → List (κ × α)
  | [], key, val => [(key, val)]
  | (k, v) :: rest, key, val =>
    if k = key then (k, val) :: rest else (k, v) :: setA rest key val

/-- Two-level lookup: value table entry at an outer and an inner key. -/
def lookup2 {κ₁ κ₂ α : Type} [DecidableEq κ₁] [DecidableEq κ₂]
    (m : List (κ₁ × List (κ₂ × α))) (k₁ : κ₁) (k₂ : κ₂) : Option α :=
  (lookupA m k₁).bind (fun inner => lookupA inner k₂)

/-! ## GridWorld (reinforcement_learning.py, class GridWorld) -/

/-- The four grid actions, Action up / down / left / right in the source. -/
inductive GWAction : Type
  | up | down | left | right
  deriving DecidableEq, Repr

/-- GridWorld state: constructor arguments plus current position. -/
structure GridWorld : Type where
  width : ℤ
  height : ℤ
  start : ℤ × ℤ
  goal : ℤ × ℤ
  row : ℤ
  col : ℤ
  deriving DecidableEq, Repr

namespace GridWorld

/-- Constructor: row, col start at start[0], start[1]. -/
def init (width height : ℤ) (start goal : ℤ × ℤ) : GridWorld :=
  { width := width, height := height, start := start, goal := goal,
    row := start.1, col := start.2 }

/-- Source get_state: None exactly at the goal, else State(row=…, col=…). -/
def get_state (g : GridWorld) : Option (ℤ × ℤ) :=
  if (g.row, g.col) = g.goal then none else some (g.row, g.col)

/-- Source get_observation delegates to get_state. -/
def get_observation (g : GridWorld) : Option (ℤ × ℤ) :=
  g.get_state

/-- Source get_actions: up when row >= 0, down when row < height-1,
left when col >= 0, right when col < width-1, appended in that order. -/
def get_actions (g : GridWorld) : List GWAction :=
  (if 0 ≤ g.row then [GWAction.up] else []) ++
  (if g.row < g.height - 1 then [GWAction.down] else []) ++
  (if 0 ≤ g.col then [GWAction.left] else []) ++
  (if g.col < g.width - 1 then [GWAction.right] else [])

/-- Source new_episode: move back to the start position. -/
def new_episode (g : GridWorld) : GridWorld :=
  { g with row := g.start.1, col := g.start.2 }

/-- Source reset delegates to new_episode. -/
def reset (g : GridWorld) : GridWorld :=
  g.new_episode

/-- Source react: asserts the action is legal (none models the assertion
failure); at the goal it returns reward 1 without moving, otherwise it moves
with clamping and returns reward -1. -/
def react (g : GridWorld) (a : GWAction) : Option (ℚ × GridWorld) :=
  if a ∈ g.get_actions then
    if (g.row, g.col) = g.goal then
      some (1, g)
    else
      some (-1,
        match a with
        | GWAction.up => { g with row := max 0 (g.row - 1) }
        | GWAction.down => { g with row := min (g.height - 1) (g.row + 1) }
        | GWAction.left => { g with col := max 0 (g.col - 1) }
        | GWAction.right => { g with col := min (g.width - 1) (g.col + 1) })
  else
    none

/-- Run a list of actions through react, collecting the rewards in order;
none if any react fails its assertion. -/
def run (g : GridWorld) : List GWAction → Option (List ℚ × GridWorld)
  | [] => some ([], g)
  | a :: rest =>
    match g.react a with
    | none => none
    | some (r, g1) =>
      match g1.run rest with
      | none => none
      | some (rs, g2) => some (r :: rs, g2)

end GridWorld

/-- The GridWorld of the spec example: width 3, height 1, start (0,0),
goal (0,2). -/
def gw0 : GridWorld := GridWorld.init 3 1 (0, 0) (0, 2)

/-- The position after two moves right from gw0: row 0, col 2 (the goal). -/
def gw2 : GridWorld := { gw0 with col := 2 }

/-! ## TMaze (reinforcement_learning.py, class TMaze) -/

/-- TMaze actions: up, left, right, halt from get_actions, plus the gate
name that react tests for (it never occurs in get_actions). -/
inductive TMAction : Type
  | up | left | right | halt | gate
  deriving DecidableEq, Repr

/-- TMaze state.  The per-episode random draws (goal_x, logical_connective)
are stored fields, as in the source; the constructor draws them from
{-1, 1}. -/
structure TMaze : Type where
  length : ℤ
  hint_pos : ℤ
  hint_pos_2 : Option ℤ
  redundant : Bool
  x : ℤ
  y : ℤ
  goal_x : ℤ
  logical_connective : ℤ
  direction : ℤ
  redundant_connective : Option ℤ
  redundant_direction : Option ℤ
  deriving DecidableEq, Repr

namespace TMaze

/-- Source get_actions: up while in the corridor, left and right at the
junction, halt once x is nonzero. -/
def get_actions (t : TMaze) : List TMAction :=
  if t.x = 0 then
    if t.y < t.length then [TMAction.up]
    else if t.y = t.length then [TMAction.left, TMAction.right]
    else []
  else [TMAction.halt]

/-- Source react: asserts legality, moves, then rewards 10 at the correct
junction side, -10 at the wrong side, -0.050 for a gate-named action while
not at the junction row, and -1 otherwise. -/
def react (t : TMaze) (a : TMAction) : Option (ℚ × TMaze) :=
  if a ∈ t.get_actions then
    let t1 :=
      match a with
      | TMAction.up => { t with y := t.y + 1 }
      | TMAction.right => { t with x := t.x + 1 }
      | TMAction.left => { t with x := t.x - 1 }
      | _ => t
    let r : ℚ :=
      if t1.y = t1.length then
        if t1.x = t1.goal_x then 10
        else if t1.x = -t1.goal_x then -10
        else -1
      else if a = TMAction.gate then -(1 / 20)
      else -1
    some (r, t1)
  else
    none

end TMaze

/-! ## TabularQLearningAgent (reinforcement_learning.py)

Observations handed to the agent have type Option Obs (none is the terminal
marker / Python None).  Keys of the inner value dictionaries have type
Option Act because Python could, in principle, store the None action as a
key (get_best_value passes get_best_action's result, which can be None,
straight into get_value); the embedding keeps that case representable. -/

/-- Agent state: the two-level value table, the two rates, and the most
recent observation/action pair. -/
structure QAgent (Obs Act : Type) : Type where
  value_function : List (Option Obs × List (Option Act × ℚ))
  learning_rate : ℚ
  discount_rate : ℚ
  prev_observation : Option Obs
  prev_action : Option Act

namespace QAgent

variable {Obs Act : Type} [DecidableEq Obs] [DecidableEq Act]

/-- Constructor: empty table, no previous observation or action. -/
def init (alpha gamma : ℚ) : QAgent Obs Act :=
  { value_function := [], learning_rate := alpha, discount_rate := gamma,
    prev_observation := none, prev_action := none }

/-- Source get_value: 0 when the observation has no table entry; otherwise
the inner defaultdict access, which inserts a 0.0 entry for a missing
action (the returned agent carries that mutation). -/
def get_value (a : QAgent Obs Act) (observation : Option Obs)
    (action : Option Act) : ℚ × QAgent Obs Act :=
  match lookupA a.value_function observation with
  | none => (0, a)
  | some inner =>
    match lookupA inner action with
    | some v => (v, a)
    | none =>
      let vf := setA a.value_function observation (setA inner action 0)
      (0, { a with value_function := vf })

/-- Source get_valued_actions: the inner dictionary keys, in insertion
order; empty when the observation has no table entry. -/
def get_valued_actions (a : QAgent Obs Act) (observation : Option Obs) :
    List (Option Act) :=
  match lookupA a.value_function observation with
  | none => []
  | some inner => inner.map Prod.fst

/-- Python max with a key function: the first element attaining the
maximum (later elements replace the champion only when strictly greater). -/
def maxByFirst {β : Type} (f : β → ℚ) (x : β) (xs : List β) : β :=
  xs.foldl (fun best y => if f best < f y then y else best) x

/-- Source get_best_action: None when there are no valued actions,
otherwise the first key maximising get_value.  The result none also covers
a stored None action key winning the maximum, exactly as in Python where
both cases return None. -/
def get_best_action (a : QAgent Obs Act) (observation : Option Obs) :
    Option Act :=
  match get_valued_actions a observation with
  | [] => none
  | x :: xs => maxByFirst (fun act => (get_value a observation act).1) x xs

/-- Source get_best_value: get_value at the best action (which may be the
None action). -/
def get_best_value (a : QAgent Obs Act) (observation : Option Obs) :
    ℚ × QAgent Obs Act :=
  get_value a observation (get_best_action a observation)

/-- Source _observe_reward: read the previous value, read the best value of
the new observation on the possibly-mutated table, combine, and write the
result at (prev_observation, prev_action), mirroring the statement order of
the Python method. -/
def observe_reward (a : QAgent Obs Act) (observation : Option Obs)
    (reward : ℚ) : QAgent Obs Act :=
  let pv := get_value a a.prev_observation a.prev_action
  let bv := get_best_value pv.2 observation
  let next_value := reward + a.discount_rate * bv.1
  let new_value := (1 - a.learning_rate) * pv.1 + a.learning_rate * next_value
  let inner := (lookupA bv.2.value_function a.prev_observation).getD []
  let vf := setA bv.2.value_function a.prev_observation
    (setA inner a.prev_action new_value)
  { bv.2 with value_function := vf }

/-- Source force_act: update the table when both a previous action and a
reward are present, then record the new observation/action pair, clearing
prev_action at a terminal observation. -/
def force_act (a : QAgent Obs Act) (observation : Option Obs) (action : Act)
    (reward : Option ℚ) : Act × QAgent Obs Act :=
  let a1 :=
    match a.prev_action, reward with
    | some _, some r => observe_reward a observation r
    | _, _ => a
  (action,
    { a1 with
      prev_observation := observation,
      prev_action :=
        (match observation with
        | none => none
        | some _ => some action) })

/-- Source act: take the best action, or a random legal one when there is
none; choiceIdx models the random draw of choice(actions).  The result is
none when choice is applied to an empty action list (a Python IndexError,
raised before any mutation). -/
def act (a : QAgent Obs Act) (observation : Option Obs) (actions : List Act)
    (reward : Option ℚ) (choiceIdx : ℕ) : Option (Act × QAgent Obs Act) :=
  match get_best_action a observation with
  | some b => some (force_act a observation b reward)
  | none =>
    match actions with
    | [] => none
    | x :: xs =>
      some (force_act a observation
        ((x :: xs).getD (choiceIdx % (xs.length + 1)) x) reward)

/-- The maximum stored value at an observation (0 when none are stored):
the claimed meaning of the max term of the Q-learning update. -/
def bestValuedQ (a : QAgent Obs Act) (observation : Option Obs) : ℚ :=
  match (get_valued_actions a observation).map
      (fun act => (get_value a observation act).1) with
  | [] => 0
  | x :: xs => xs.foldl max x

end QAgent

/-- One public call to a TabularQLearningAgent, with its arguments;
the natural number carries the random draw used by act. -/
inductive ACall (Obs Act : Type) : Type
  | getValue : Option Obs → Option Act → ACall Obs Act
  | act : Option Obs → List Act → Option ℚ → ℕ → ACall Obs Act
  | forceAct : Option Obs → Act → Option ℚ → ACall Obs Act

/-- Execute one call against the agent state.  A crashing act (empty action
list with no best action) raises before any mutation, so the state is
unchanged. -/
def execCall {Obs Act : Type} [DecidableEq Obs] [DecidableEq Act]
    (a : QAgent Obs Act) : ACall Obs Act → QAgent Obs Act
  | ACall.getValue obs action => (QAgent.get_value a obs action).2
  | ACall.act obs actions reward i =>
    match QAgent.act a obs actions reward i with
    | none => a
    | some (_, a2) => a2
  | ACall.forceAct obs action reward => (QAgent.force_act a obs action reward).2

/-- Execute a sequence of public calls from a given agent state. -/
def runCalls {Obs Act : Type} [DecidableEq Obs] [DecidableEq Act]
    (a : QAgent Obs Act) (calls : List (ACall Obs Act)) : QAgent Obs Act :=
  calls.foldl execCall a

/-- Written from the specification text of the update rule, for comparison
with the code: new Q is (1-alpha)*prev + alpha*(reward + gamma*M) where M
is the maximum of the valued-action Q values of the new observation at call
time, 0 when there are none. -/
def claimedQUpdate (alpha gamma q_prev reward : ℚ) (valuedQ : List ℚ) : ℚ :=
  (1 - alpha) * q_prev +
    alpha * (reward + gamma *
      (match valuedQ with
       | [] => 0
       | x :: xs => xs.foldl max x))

/-! ## gating_memory (reinforcement_learning.py, def gating_memory)

The wrapper is generic over the wrapped environment class, modelled as a
record of its operations over a state type; an observation is the ordered
list of the State object's named fields. -/

/-- Operations of a wrapped environment, as used by the gating wrapper. -/
structure EnvModel (σ V β : Type) : Type where
  get_observation : σ → Option (List (String × V))
  get_actions : σ → List β
  react : σ → β → Option (ℚ × σ)
  reset : σ → σ

/-- State added by the gating wrapper: the wrapped state plus the
configured gate reward, the slot count, and the slots themselves. -/
structure GatingEnv (σ V : Type) : Type where
  base : σ
  reward : ℚ
  num_memory_slots : ℕ
  memories : List (Option V)
  deriving DecidableEq

/-- An action of the wrapped environment, or Action(gate, slot=…,
attribute=…).  The slot is an integer, as in Python, so that negative
slots are representable. -/
inductive GAction (β : Type) : Type
  | base : β → GAction β
  | gate : ℤ → String → GAction β
  deriving DecidableEq, Repr

/-- Python list item assignment at an integer index: in-range indices are
written directly, negative indices wrap from the end, anything else is an
IndexError (none). -/
def listSetInt {β : Type} (l : List β) (i : ℤ) (v : β) : Option (List β) :=
  if 0 ≤ i ∧ i < (l.length : ℤ) then
    some (l.set i.toNat v)
  else if -(l.length : ℤ) ≤ i ∧ i < 0 then
    some (l.set (i + (l.length : ℤ)).toNat v)
  else
    none

/-- Source GatingMemoryMetaEnvironment.get_actions: the wrapped actions,
then, unless the wrapped observation is terminal, one gate action per
(slot, field) pair in slot-major order, skipping a field named memory. -/
def gm_get_actions {σ V β : Type} (E : EnvModel σ V β) (g : GatingEnv σ V) :
    List (GAction β) :=
  let actions := (E.get_actions g.base).map GAction.base
  match E.get_observation g.base with
  | none => actions
  | some obs =>
    actions ++
      (List.range g.num_memory_slots).flatMap (fun slot =>
        (obs.filter (fun kv => kv.1 ≠ "memory")).map
          (fun kv => GAction.gate (slot : ℤ) kv.1))

/-- Source GatingMemoryMetaEnvironment.react: a gate-named action copies
the named field of the wrapped observation into the slot and returns the
configured reward, without calling the wrapped react; other actions are
forwarded.  The none results model AttributeError (terminal or missing
field) and IndexError (slot out of range). -/
def gm_react {σ V β : Type} [DecidableEq V] (E : EnvModel σ V β)
    (g : GatingEnv σ V) (a : GAction β) : Option (ℚ × GatingEnv σ V) :=
  match a with
  | GAction.gate slot attr =>
    match E.get_observation g.base with
    | none => none
    | some obs =>
      match lookupA obs attr with
      | none => none
      | some v =>
        match listSetInt g.memories slot (some v) with
        | none => none
        | some mem => some (g.reward, { g with memories := mem })
  | GAction.base b =>
    match E.react g.base b with
    | none => none
    | some (r, s) => some (r, { g with base := s })

/-- Source GatingMemoryMetaEnvironment.reset: delegate, then clear every
slot back to None. -/
def gm_reset {σ V β : Type} (E : EnvModel σ V β) (g : GatingEnv σ V) :
    GatingEnv σ V :=
  { g with base := E.reset g.base,
           memories := List.replicate g.num_memory_slots none }

/-- GridWorld as a wrapped environment: State(row=…, col=…) exposes the
fields row and col, in that insertion order. -/
def gridEnvModel : EnvModel GridWorld ℤ GWAction :=
  { get_observation := fun g =>
      (GridWorld.get_observation g).map (fun rc => [("row", rc.1), ("col", rc.2)]),
    get_actions := GridWorld.get_actions,
    react := GridWorld.react,
    reset := GridWorld.reset }

/-- A gating-wrapped GridWorld with one memory slot and gate reward 5, at
the start position of gw0. -/
def wgw : GatingEnv GridWorld ℤ :=
  { base := gw0, reward := 5, num_memory_slots := 1, memories := [none] }

/-- A minimal environment whose observation has exactly one field, used to
instantiate theorems about the gating wrapper at a concrete input. -/
def oneFieldEnv : EnvModel Unit ℤ Unit :=
  { get_observation := fun _ => some [("f", 7)],
    get_actions := fun _ => [],
    react := fun _ _ => none,
    reset := fun s => s }

/-! ## epsilon_greedy (reinforcement_learning.py, def epsilon_greedy)

The wrapper is generic over the wrapped agent class, modelled as a record
of its act and force_act operations over an agent-state type. -/

/-- Operations of a wrapped agent, as used by the epsilon-greedy wrapper;
act is none when the wrapped agent raises. -/
structure AgentModel (σ ω β : Type) : Type where
  act : σ → ω → List β → Option ℚ → Option (β × σ)
  force_act : σ → ω → β → Option ℚ → β × σ

/-- Source EpsilonGreedyMetaAgent.act: when the random draw r is below
epsilon, call the wrapped force_act on choice(actions) (none for an empty
list), otherwise delegate to the wrapped act; the reward is passed through
unchanged either way. -/
def epsilon_greedy_act {σ ω β : Type} (epsilon : ℚ) (M : AgentModel σ ω β)
    (s : σ) (r : ℚ) (observation : ω) (actions : List β) (reward : Option ℚ)
    (choiceIdx : ℕ) : Option (β × σ) :=
  if r < epsilon then
    match actions with
    | [] => none
    | x :: xs =>
      some (M.force_act s observation
        ((x :: xs).getD (choiceIdx % (xs.length + 1)) x) reward)
  else
    M.act s observation actions reward

/-- Run a sequence of act calls against the wrapped agent directly,
collecting the chosen actions; the draw component of each call is unused
here and kept only so that the two runners take the same call lists. -/
def runAgent {σ ω β : Type} (M : AgentModel σ ω β) (s : σ) :
    List (ℚ × ω × List β × Option ℚ × ℕ) → Option (List β × σ)
  | [] => some ([], s)
  | (_, obs, actions, reward, _) :: rest =>
    match M.act s obs actions reward with
    | none => none
    | some (b, s1) =>
      match runAgent M s1 rest with
      | none => none
      | some (bs, s2) => some (b :: bs, s2)

/-- Run the same sequence of act calls through the epsilon-greedy wrapper,
using each call's draw component as its random draw. -/
def runEG {σ ω β : Type} (epsilon : ℚ) (M : AgentModel σ ω β) (s : σ) :
    List (ℚ × ω × List β × Option ℚ × ℕ) → Option (List β × σ)
  | [] => some ([], s)
  | (r, obs, actions, reward, i) :: rest =>
    match epsilon_greedy_act epsilon M s r obs actions reward i with
    | none => none
    | some (b, s1) =>
      match runEG epsilon M s1 rest with
      | none => none
      | some (bs, s2) => some (b :: bs, s2)

/-! ## get_parameters (pspace_run.py) -/

/-- Source get_parameters: chunk_size = total // num_cores, remainders =
total % num_cores, and the slice parameters[start:stop] with start =
chunk_size*core + min(core, remainders) and stop = chunk_size*(core+1) +
min(core+1, remainders). -/
def get_parameters {β : Type} (parameters : List β) (num_cores core : ℕ) :
    List β :=
  let chunk_size := parameters.length / num_cores
  let remainders := parameters.length % num_cores
  let start := chunk_size * core + min core remainders
  let stop := chunk_size * (core + 1) + min (core + 1) remainders
  (parameters.drop start).take (stop - start)

/-- The index at which worker i's slice of a collection of the given total
size begins, for num_cores workers. -/
def sliceStart (total num_cores i : ℕ) : ℕ :=
  total / num_cores * i + min i (total % num_cores)

/-! ## Auxiliary predicates and concrete states used by the theorems -/

/-- The two structural invariants of a TabularQLearningAgent: the value
table has no entry keyed by the terminal marker, and a recorded previous
action implies a non-terminal previous observation. -/
def AgentInv {Obs Act : Type} (a : QAgent Obs Act) : Prop :=
  (∀ p ∈ a.value_function, p.1 ≠ (none : Option Obs)) ∧
  (a.prev_observation = none → a.prev_action = none)

/-- A fresh TMaze of length 1 with hint at 0 and goal side +1, as drawn by
the constructor. -/
def tmw : TMaze :=
  { length := 1, hint_pos := 0, hint_pos_2 := none, redundant := false,
    x := 0, y := 0, goal_x := 1, logical_connective := 1, direction := 1,
    redundant_connective := none, redundant_direction := none }

/-- An agent with alpha 0.5 and gamma 0.9, an empty table, and a recorded
previous pair: the state of the worked 5.0 example of the spec. -/
def c1agent : QAgent ℕ ℕ :=
  { value_function := [], learning_rate := 1 / 2, discount_rate := 9 / 10,
    prev_observation := some 0, prev_action := some 0 }

/-- An agent with learning rate 1 and discount 1 whose table values
observation 0 only at action 1 (with value -5), while the recorded
previous pair is (observation 0, action 2): the state at which the code's
update disagrees with the claimed one. -/
def c1cex : QAgent ℕ ℕ :=
  { value_function := [(some 0, [(some 1, -5)])], learning_rate := 1,
    discount_rate := 1, prev_observation := some 0, prev_action := some 2 }

/-- An agent whose table has one entry at observation 0, used to exhibit
the read side effect of get_value at a concrete input. -/
def c10agent : QAgent ℕ ℕ :=
  { value_function := [(some 0, [(some 1, 2)])], learning_rate := 1 / 2,
    discount_rate := 9 / 10, prev_observation := none, prev_action := none }

/-- A gating-wrapped one-field environment with two memory slots and gate
reward 3. -/
def c4env : GatingEnv Unit ℤ :=
  { base := (), reward := 3, num_memory_slots := 2, memories := [none, none] }

/-- A concrete wrapped agent used to instantiate the epsilon-greedy
theorems: the agent state counts calls, act picks the observation. -/
def c5model : AgentModel ℕ ℕ ℕ :=
  { act := fun s obs _ _ => some (obs, s + 1),
    force_act := fun s _ b _ => (b, s + 2) }

end RL

namespace RL

/-! # Theorems -/

/-! ## Association list lemmas -/

@[simp] theorem lookupA_nil {κ α : Type} [DecidableEq κ] (key : κ) :
    lookupA ([] : List (κ × α)) key = none := rfl

@[simp] theorem lookupA_cons {κ α : Type} [DecidableEq κ]
    (k : κ) (v : α) (rest : List (κ × α)) (key : κ) :
    lookupA ((k, v) :: rest) key = if k = key then some v else lookupA rest key := rfl

@[simp] theorem setA_nil {κ α : Type} [DecidableEq κ] (key : κ) (val : α) :
    setA ([] : List (κ × α)) key val = [(key, val)] := rfl

@[simp] theorem setA_cons {κ α : Type} [DecidableEq κ]
    (k : κ) (v : α) (rest : List (κ × α)) (key : κ) (val : α) :
    setA ((k, v) :: rest) key val =
      if k = key then (k, val) :: rest else (k, v) :: setA rest key val := rfl

theorem lookupA_setA_self {κ α : Type} [DecidableEq κ]
    (m : List (κ × α)) (key : κ) (val : α) :
    lookupA (setA m key val) key = some val := by
  induction m with
  | nil => simp
  | cons p rest ih =>
    obtain ⟨k, v⟩ := p
    by_cases h : k = key <;> simp [h, ih]

theorem mem_keys_setA {κ α : Type} [DecidableEq κ]
    (m : List (κ × α)) (key : κ) (val : α) :
    ∀ p ∈ setA m key val, p.1 = key ∨ p.1 ∈ m.map Prod.fst := by
  induction m with
  | nil => simp
  | cons q rest ih =>
    obtain ⟨k, v⟩ := q
    intro p hp
    by_cases h : k = key
    · simp [h] at hp
      rcases hp with hp | hp
      · left; rw [hp]
      · right
        exact List.mem_map_of_mem Prod.fst (List.mem_cons_of_mem _ hp)
    · simp [h] at hp
      rcases hp with hp | hp
      · right; simp [hp]
      · rcases ih p hp with h1 | h1
        · exact Or.inl h1
        · right
          simp only [List.map_cons, List.mem_cons]
          exact Or.inr h1

theorem lookupA_eq_none_of_not_mem {κ α : Type} [DecidableEq κ]
    (m : List (κ × α)) (key : κ) (h : ∀ p ∈ m, p.1 ≠ key) :
    lookupA m key = none := by
  induction m with
  | nil => rfl
  | cons q rest ih =>
    obtain ⟨k, v⟩ := q
    have hk : k ≠ key := h (k, v) (by simp)
    simp [hk]
    exact ih (fun p hp => h p (by simp [hp]))

/-! ## C2: GridWorld example episode -/

/-- C2 (counterexample): in GridWorld with width 3, height 1, start (0,0),
goal (0,2), the action sequence [right, right] yields the rewards
[-1, -1], not [-1, +1] as claimed: react tests the goal before moving, so
the step that arrives at the goal is still rewarded -1. -/
theorem c2_counterexample :
    (GridWorld.run gw0 [GWAction.right, GWAction.right]).map Prod.fst
        = some [-1, -1] ∧
    (GridWorld.run gw0 [GWAction.right, GWAction.right]).map Prod.fst
        ≠ some [-1, 1] := by
  decide

/-- C2 (amended): for GridWorld width 3, height 1, start (0,0), goal
(0,2), the action sequence [right, right] yields rewards [-1, -1], the
observation is then terminal, and a further react call at the goal returns
reward +1 without moving. -/
theorem c2_theorem :
    GridWorld.run gw0 [GWAction.right, GWAction.right] = some ([-1, -1], gw2) ∧
    gw2.get_observation = none ∧
    gw2.react GWAction.up = some (1, gw2) := by
  decide

/-! ## C3: GridWorld legal actions -/

/-- C3 (counterexample): at position (0,0) of the 3 by 1 GridWorld, the
returned action list contains up and left although both moves point at an
adjacent boundary, contradicting the claim that such moves are excluded. -/
theorem c3_counterexample :
    gw0.row = 0 ∧ gw0.col = 0 ∧
    GWAction.up ∈ gw0.get_actions ∧
    GWAction.left ∈ gw0.get_actions ∧
    gw0.get_actions = [GWAction.up, GWAction.left, GWAction.right] := by
  decide

/-- C3 (amended): get_actions contains down exactly when row < height - 1
and right exactly when col < width - 1 (moves that stay in bounds), but up
whenever row is nonnegative and left whenever col is nonnegative: moves
toward an adjacent boundary from row 0 or column 0 are included, not
excluded. -/
theorem c3_theorem (g : GridWorld) :
    (GWAction.up ∈ g.get_actions ↔ 0 ≤ g.row) ∧
    (GWAction.down ∈ g.get_actions ↔ g.row < g.height - 1) ∧
    (GWAction.left ∈ g.get_actions ↔ 0 ≤ g.col) ∧
    (GWAction.right ∈ g.get_actions ↔ g.col < g.width - 1) := by
  unfold GridWorld.get_actions
  split_ifs <;> simp_all

/-! ## C7: TMaze rewards -/

/-- Characterisation of the junction reward chain for a goal side drawn
from {-1, 1}. -/
theorem tm_reward_char (y len x goal : ℤ) (hg : goal = 1 ∨ goal = -1) :
    ((if y = len then (if x = goal then (10 : ℚ) else if x = -goal then -10 else -1)
        else -1) = 10 ↔ (y = len ∧ x = goal)) ∧
    ((if y = len then (if x = goal then (10 : ℚ) else if x = -goal then -10 else -1)
        else -1) = -10 ↔ (y = len ∧ x = -goal)) ∧
    (¬(y = len ∧ (x = goal ∨ x = -goal)) →
      (if y = len then (if x = goal then (10 : ℚ) else if x = -goal then -10 else -1)
        else -1) = -1) := by
  refine ⟨?_, ?_, ?_⟩ <;> split_ifs <;> norm_num <;> omega

/-- C7: for every legal TMaze action the reward is +10 exactly when the
resulting position is at the junction row on the hidden goal side, -10
exactly when it is at the junction row on the opposite side, and -1 in
every other case (in particular for each forward corridor step); the
hypothesis that goal_x is drawn from {-1, 1} is established by the
constructor. -/
theorem c7_theorem (t : TMaze) (a : TMAction)
    (hg : t.goal_x = 1 ∨ t.goal_x = -1) (ha : a ∈ t.get_actions) :
    ∃ r t1, t.react a = some (r, t1) ∧
      (r = 10 ↔ (t1.y = t.length ∧ t1.x = t.goal_x)) ∧
      (r = -10 ↔ (t1.y = t.length ∧ t1.x = -t.goal_x)) ∧
      (¬(t1.y = t.length ∧ (t1.x = t.goal_x ∨ t1.x = -t.goal_x)) → r = -1) := by
  have hgate : a ≠ TMAction.gate := by
    intro h
    subst h
    unfold TMaze.get_actions at ha
    split_ifs at ha <;> simp_all
  unfold TMaze.react
  rw [if_pos ha]
  cases a with
  | gate => exact absurd rfl hgate
  | up =>
    exact ⟨_, _, rfl, tm_reward_char (t.y + 1) t.length t.x t.goal_x hg⟩
  | left =>
    exact ⟨_, _, rfl, tm_reward_char t.y t.length (t.x - 1) t.goal_x hg⟩
  | right =>
    exact ⟨_, _, rfl, tm_reward_char t.y t.length (t.x + 1) t.goal_x hg⟩
  | halt =>
    exact ⟨_, _, rfl, tm_reward_char t.y t.length t.x t.goal_x hg⟩

/-- C7 (witness): a fresh length-1 TMaze with goal side +1, stepping up:
the reward is -1. -/
theorem c7_witness :
    (tmw.goal_x = 1 ∨ tmw.goal_x = -1) ∧ TMAction.up ∈ tmw.get_actions ∧
    (∃ r t1, tmw.react TMAction.up = some (r, t1) ∧
      (r = 10 ↔ (t1.y = tmw.length ∧ t1.x = tmw.goal_x)) ∧
      (r = -10 ↔ (t1.y = tmw.length ∧ t1.x = -tmw.goal_x)) ∧
      (¬(t1.y = tmw.length ∧ (t1.x = tmw.goal_x ∨ t1.x = -tmw.goal_x)) → r = -1)) :=
  ⟨Or.inl rfl, by decide, c7_theorem tmw TMAction.up (Or.inl rfl) (by decide)⟩

/-! ## C6: illegal actions -/

/-- C6 (counterexample): the gating wrapper does not check gate actions
against get_actions: on a wrapped GridWorld with one memory slot, the
action gate(slot=-1, attribute=row) is not in get_actions (the only gate
slots offered are nonnegative), yet react succeeds, returns the configured
gate reward 5, and writes the last memory slot through Python negative
indexing instead of failing. -/
theorem c6_counterexample :
    GAction.gate (-1) "row" ∉ gm_get_actions gridEnvModel wgw ∧
    gm_react gridEnvModel wgw (GAction.gate (-1) "row")
      = some (5, { wgw with memories := [some 0] }) := by
  decide

/-- C6 (amended): GridWorld.react and TMaze.react fail (assertion error)
on every action outside the latest get_actions result, and the gating
wrapper forwards a failing wrapped react unchanged; but gate actions are
performed by the wrapper without any legality check, as the counterexample
shows. -/
theorem c6_theorem :
    (∀ (g : GridWorld) (a : GWAction), a ∉ g.get_actions → g.react a = none) ∧
    (∀ (t : TMaze) (a : TMAction), a ∉ t.get_actions → t.react a = none) ∧
    (∀ {σ V β : Type} [DecidableEq V] (E : EnvModel σ V β)
      (g : GatingEnv σ V) (b : β),
      E.react g.base b = none → gm_react E g (GAction.base b) = none) := by
  refine ⟨?_, ?_, ?_⟩
  · intro g a h
    unfold GridWorld.react
    rw [if_neg h]
  · intro t a h
    unfold TMaze.react
    rw [if_neg h]
  · intro σ V β _ E g b h
    simp only [gm_react, h]

/-- C6 (witness): at the start of the 3 by 1 GridWorld the action down is
illegal (height 1) and react fails on it. -/
theorem c6_witness :
    GWAction.down ∉ gw0.get_actions ∧ gw0.react GWAction.down = none :=
  ⟨by decide, c6_theorem.1 gw0 GWAction.down (by decide)⟩

/-! ## C4: gating-memory wrapper -/

/-- C4: for a gating wrapper with 2 memory slots over a wrapped
environment whose observation has exactly one field (not named memory),
get_actions is the wrapped action list plus exactly the two gate actions,
one per slot; react on gate(slot=0, attribute=x) copies the field value
into slot 0 and returns the configured gate reward, leaving the wrapped
state untouched; and reset clears both slots to none. -/
theorem c4_theorem {σ V β : Type} [DecidableEq V] (E : EnvModel σ V β)
    (g : GatingEnv σ V) (x : String) (v : V) (m0 m1 : Option V)
    (hk : g.num_memory_slots = 2)
    (hobs : E.get_observation g.base = some [(x, v)])
    (hx : x ≠ "memory")
    (hm : g.memories = [m0, m1]) :
    gm_get_actions E g
      = (E.get_actions g.base).map GAction.base
          ++ [GAction.gate 0 x, GAction.gate 1 x] ∧
    gm_react E g (GAction.gate 0 x)
      = some (g.reward, { g with memories := [some v, m1] }) ∧
    gm_reset E g
      = { g with base := E.reset g.base, memories := [none, none] } := by
  refine ⟨?_, ?_, ?_⟩
  · simp only [gm_get_actions, hobs, hk]
    norm_num [List.range_succ, List.filter_cons, hx]
  · simp only [gm_react, hobs]
    simp [listSetInt, hm]
  · simp [gm_reset, hk]

/-- C4 (witness): the wrapper at a concrete one-field environment with two
empty slots and gate reward 3. -/
theorem c4_witness :
    c4env.num_memory_slots = 2 ∧
    oneFieldEnv.get_observation c4env.base = some [("f", 7)] ∧
    "f" ≠ "memory" ∧
    c4env.memories = [none, none] ∧
    (gm_get_actions oneFieldEnv c4env
      = (oneFieldEnv.get_actions c4env.base).map GAction.base
          ++ [GAction.gate 0 "f", GAction.gate 1 "f"] ∧
    gm_react oneFieldEnv c4env (GAction.gate 0 "f")
      = some (c4env.reward, { c4env with memories := [some 7, none] }) ∧
    gm_reset oneFieldEnv c4env
      = { c4env with base := oneFieldEnv.reset c4env.base,
                     memories := [none, none] }) :=
  ⟨rfl, rfl, by decide, rfl,
    c4_theorem oneFieldEnv c4env "f" 7 none none rfl rfl (by decide) rfl⟩

/-! ## C5: epsilon-greedy wrapper -/

/-- With epsilon 0 and every random draw in [0, 1), the wrapped act is
called on every step with unchanged arguments: the chosen actions and the
final agent state agree with the unwrapped agent on any call sequence. -/
theorem runEG_zero {σ ω β : Type} (M : AgentModel σ ω β) (s : σ)
    (calls : List (ℚ × ω × List β × Option ℚ × ℕ))
    (hdraws : ∀ c ∈ calls, 0 ≤ c.1) :
    runEG 0 M s calls = runAgent M s calls := by
  revert hdraws
  induction calls generalizing s with
  | nil => intro _; rfl
  | cons c rest ih =>
    intro hdraws
    obtain ⟨r0, obs0, actions0, reward0, i0⟩ := c
    have h0 : ¬ r0 < (0 : ℚ) := not_lt.mpr (hdraws _ (List.mem_cons_self _ _))
    simp only [runEG, runAgent, epsilon_greedy_act, if_neg h0]
    have ihs : ∀ s2, runEG 0 M s2 rest = runAgent M s2 rest :=
      fun s2 => ih s2 (fun c hc => hdraws c (List.mem_cons_of_mem _ hc))
    simp only [ihs]

/-- C5: with epsilon 0 the wrapper reproduces the wrapped agent's chosen
actions and state evolution on every call sequence whose draws lie in
[0, 1); with epsilon 1 a single act call never reaches the wrapped act:
it calls the wrapped force_act on the randomly chosen legal action
(choice of a nonempty action list), passing the reward through. -/
theorem c5_theorem {σ ω β : Type} (M : AgentModel σ ω β) (s : σ)
    (calls : List (ℚ × ω × List β × Option ℚ × ℕ))
    (hdraws : ∀ c ∈ calls, 0 ≤ c.1)
    (r : ℚ) (hr : r < 1) (obs : ω) (x : β) (xs : List β)
    (reward : Option ℚ) (i : ℕ) :
    runEG 0 M s calls = runAgent M s calls ∧
    epsilon_greedy_act 1 M s r obs (x :: xs) reward i
      = some (M.force_act s obs
          ((x :: xs).getD (i % (xs.length + 1)) x) reward) ∧
    (x :: xs).getD (i % (xs.length + 1)) x ∈ x :: xs := by
  refine ⟨runEG_zero M s calls hdraws, ?_, ?_⟩
  · simp only [epsilon_greedy_act, if_pos hr]
  · have hlt : i % (xs.length + 1) < (x :: xs).length := by
      simpa using Nat.mod_lt i (Nat.succ_pos xs.length)
    rw [List.getD_eq_getElem _ _ hlt]
    exact List.getElem_mem hlt

/-- C5 (witness): a concrete wrapped agent, one call with draw 0, and a
singleton action list. -/
theorem c5_witness :
    (∀ c ∈ [((0 : ℚ), 7, [4], (none : Option ℚ), 0)], 0 ≤ c.1) ∧
    ((0 : ℚ) < 1) ∧
    (runEG 0 c5model 0 [((0 : ℚ), 7, [4], none, 0)]
        = runAgent c5model 0 [((0 : ℚ), 7, [4], none, 0)] ∧
    epsilon_greedy_act 1 c5model 0 0 7 [4] none 0
      = some (c5model.force_act 0 7 ([4].getD (0 % 1) 4) none) ∧
    [4].getD (0 % 1) 4 ∈ [4]) :=
  ⟨by decide, by norm_num,
    c5_theorem c5model 0 [((0 : ℚ), 7, [4], none, 0)] (by decide)
      0 (by norm_num) 7 4 [] none 0⟩

/-! ## C1: the Q-learning update -/

/-- The key of Python max with a key function: the value of the first
maximiser is the maximum of the values. -/
theorem f_maxByFirst {β : Type} (f : β → ℚ) (x : β) (xs : List β) :
    f (QAgent.maxByFirst f x xs) = (xs.map f).foldl max (f x) := by
  induction xs generalizing x with
  | nil => rfl
  | cons y ys ih =>
    have hstep : f (if f x < f y then y else x) = max (f x) (f y) := by
      split_ifs with h
      · exact (max_eq_right h.le).symm
      · exact (max_eq_left (not_lt.mp h)).symm
    show f (QAgent.maxByFirst f (if f x < f y then y else x) ys)
        = (ys.map f).foldl max (max (f x) (f y))
    rw [ih, hstep]

/-- The first component of get_best_value is the maximum stored value at
the observation, 0 when nothing is stored there. -/
theorem get_best_value_fst {Obs Act : Type} [DecidableEq Obs] [DecidableEq Act]
    (a : QAgent Obs Act) (obs : Option Obs) :
    (QAgent.get_best_value a obs).1 = QAgent.bestValuedQ a obs := by
  unfold QAgent.get_best_value QAgent.get_best_action QAgent.bestValuedQ
  cases h : QAgent.get_valued_actions a obs with
  | nil =>
    simp only [List.map_nil]
    unfold QAgent.get_valued_actions at h
    unfold QAgent.get_value
    cases hl : lookupA a.value_function obs with
    | none => simp [hl]
    | some inner =>
      rw [hl] at h
      simp only at h
      have hin : inner = [] := List.map_eq_nil_iff.mp h
      subst hin
      simp [hl]
  | cons x xs =>
    simp only [List.map_cons, List.foldl_cons]
    exact f_maxByFirst (fun act => (QAgent.get_value a obs act).1) x xs

/-- The value force_act stores when a previous action and a reward are
both present: (1-alpha)*Q(prev) + alpha*(reward + gamma*M) where M is the
maximum stored value of the new observation on the table as it stands
after the lookup of the previous value. -/
theorem qupdate_stored {Obs Act : Type} [DecidableEq Obs] [DecidableEq Act]
    (a : QAgent Obs Act) (pa : Act) (hpa : a.prev_action = some pa)
    (obs : Option Obs) (b : Act) (r : ℚ) :
    lookup2 ((QAgent.force_act a obs b (some r)).2).value_function
        a.prev_observation (some pa)
      = some ((1 - a.learning_rate) *
            (QAgent.get_value a a.prev_observation (some pa)).1
          + a.learning_rate * (r + a.discount_rate *
            QAgent.bestValuedQ
              (QAgent.get_value a a.prev_observation (some pa)).2 obs)) := by
  obtain ⟨vf, lr, dr, po, pact⟩ := a
  replace hpa : pact = some pa := hpa
  subst hpa
  simp only [QAgent.force_act, QAgent.observe_reward]
  unfold lookup2
  rw [lookupA_setA_self]
  simp only [Option.some_bind]
  rw [lookupA_setA_self]
  rw [get_best_value_fst]

/-- C1 (counterexample): at a state whose previous pair (observation 0,
action 2) has no stored value while observation 0 already values action 1
at -5, force_act with reward 0 stores 0 at the previous pair, whereas the
claimed formula (max over the valued actions of the new observation, here
the same observation 0, at call time) yields -5: the code first inserts a
zero entry for (observation 0, action 2) during the lookup of the previous
value, and that entry then wins the max. -/
theorem c1_counterexample :
    c1cex.prev_observation = some 0 ∧ c1cex.prev_action = some 2 ∧
    (QAgent.get_value c1cex (some 0) (some 2)).1 = 0 ∧
    (QAgent.get_valued_actions c1cex (some 0)).map
        (fun b => (QAgent.get_value c1cex (some 0) b).1) = [-5] ∧
    claimedQUpdate c1cex.learning_rate c1cex.discount_rate 0 0 [-5] = -5 ∧
    lookup2 ((QAgent.force_act c1cex (some 0) 3 (some 0)).2).value_function
        (some 0) (some 2) = some 0 ∧
    (0 : ℚ) ≠ -5 := by
  refine ⟨rfl, rfl, rfl, rfl, by norm_num [claimedQUpdate, c1cex], ?_, by norm_num⟩
  have h := qupdate_stored c1cex 2 rfl (some 0) 3 0
  rw [show c1cex.prev_observation = some 0 from rfl] at h
  rw [h]
  norm_num [c1cex, QAgent.get_value, QAgent.get_valued_actions,
    QAgent.bestValuedQ, max_def]

/-- C1 (amended): whenever force_act runs with a previous action recorded
and a reward provided, it replaces Q(prev_obs, prev_action) with
(1-alpha)*Q(prev_obs, prev_action) + alpha*(reward + gamma*M), where M is
the maximum stored value of obs (0 if obs is terminal or has no valued
actions) taken after the lookup of Q(prev_obs, prev_action) — a lookup
that itself inserts a zero-valued entry when obs equals prev_obs and
prev_action was unvalued there. -/
theorem c1_theorem {Obs Act : Type} [DecidableEq Obs] [DecidableEq Act]
    (a : QAgent Obs Act) (pa : Act) (hpa : a.prev_action = some pa)
    (obs : Option Obs) (b : Act) (r : ℚ) :
    lookup2 ((QAgent.force_act a obs b (some r)).2).value_function
        a.prev_observation (some pa)
      = some ((1 - a.learning_rate) *
            (QAgent.get_value a a.prev_observation (some pa)).1
          + a.learning_rate * (r + a.discount_rate *
            QAgent.bestValuedQ
              (QAgent.get_value a a.prev_observation (some pa)).2 obs)) :=
  qupdate_stored a pa hpa obs b r

/-- C1 (witness): the worked example of the spec, alpha 0.5 and gamma 0.9:
empty prior table, reward 10, best value 0, so the stored value is exactly
5. -/
theorem c1_witness :
    c1agent.prev_action = some 0 ∧
    lookup2 ((QAgent.force_act c1agent (some 1) 0 (some 10)).2).value_function
        (some 0) (some 0) = some 5 := by
  refine ⟨rfl, ?_⟩
  have h := c1_theorem c1agent 0 rfl (some 1) 0 10
  rw [show c1agent.prev_observation = some 0 from rfl] at h
  rw [h]
  norm_num [c1agent, QAgent.get_value, QAgent.get_valued_actions,
    QAgent.bestValuedQ]

/-! ## C8: no terminal key in the value table -/

/-- The fields of the agent other than the value table are untouched by
get_value. -/
theorem get_value_fields {Obs Act : Type} [DecidableEq Obs] [DecidableEq Act]
    (a : QAgent Obs Act) (obs : Option Obs) (act : Option Act) :
    (QAgent.get_value a obs act).2.prev_observation = a.prev_observation ∧
    (QAgent.get_value a obs act).2.prev_action = a.prev_action := by
  unfold QAgent.get_value
  split
  · exact ⟨rfl, rfl⟩
  · split
    · exact ⟨rfl, rfl⟩
    · exact ⟨rfl, rfl⟩

/-- A get_value call cannot introduce a terminal key into the table. -/
theorem get_value_keys {Obs Act : Type} [DecidableEq Obs] [DecidableEq Act]
    (a : QAgent Obs Act) (obs : Option Obs) (act : Option Act)
    (hkeys : ∀ p ∈ a.value_function, p.1 ≠ (none : Option Obs)) :
    ∀ p ∈ (QAgent.get_value a obs act).2.value_function,
      p.1 ≠ (none : Option Obs) := by
  unfold QAgent.get_value
  split
  · exact hkeys
  · rename_i inner h1
    split
    · exact hkeys
    · rename_i h2
      intro p hp
      replace hp : p ∈ setA a.value_function obs (setA inner act 0) := hp
      rcases mem_keys_setA a.value_function obs _ p hp with h | h
      · cases obs with
        | none =>
          rw [lookupA_eq_none_of_not_mem a.value_function none hkeys] at h1
          exact absurd h1 (by simp)
        | some o => simp [h]
      · rcases List.mem_map.mp h with ⟨q, hq, hq1⟩
        rw [← hq1]
        exact hkeys q hq

/-- The table produced by observe_reward is a single write at the previous
observation on top of the table left by its two reads. -/
theorem observe_reward_vf {Obs Act : Type} [DecidableEq Obs] [DecidableEq Act]
    (a : QAgent Obs Act) (obs : Option Obs) (r : ℚ) :
    ∃ X, (QAgent.observe_reward a obs r).value_function
      = setA (QAgent.get_best_value
          (QAgent.get_value a a.prev_observation a.prev_action).2
            obs).2.value_function
        a.prev_observation X :=
  ⟨_, rfl⟩

/-- An observe_reward call writes only at the previous observation, which
is non-terminal, and cannot introduce a terminal key. -/
theorem observe_reward_keys {Obs Act : Type} [DecidableEq Obs] [DecidableEq Act]
    (a : QAgent Obs Act) (obs : Option Obs) (r : ℚ) (po : Obs)
    (hpo : a.prev_observation = some po)
    (hkeys : ∀ p ∈ a.value_function, p.1 ≠ (none : Option Obs)) :
    ∀ p ∈ (QAgent.observe_reward a obs r).value_function,
      p.1 ≠ (none : Option Obs) := by
  have hk1 := get_value_keys a a.prev_observation a.prev_action hkeys
  have hk2 := get_value_keys (QAgent.get_value a a.prev_observation a.prev_action).2
    obs (QAgent.get_best_action
      (QAgent.get_value a a.prev_observation a.prev_action).2 obs) hk1
  intro p hp
  obtain ⟨X, hvf⟩ := observe_reward_vf a obs r
  rw [hvf] at hp
  rcases mem_keys_setA _ _ _ p hp with h | h
  · rw [h, hpo]
    simp
  · rcases List.mem_map.mp h with ⟨q, hq, hq1⟩
    rw [← hq1]
    exact hk2 q hq

/-- One force_act call preserves both agent invariants. -/
theorem force_act_inv {Obs Act : Type} [DecidableEq Obs] [DecidableEq Act]
    (a : QAgent Obs Act) (obs : Option Obs) (b : Act) (reward : Option ℚ)
    (hinv : AgentInv a) : AgentInv (QAgent.force_act a obs b reward).2 := by
  obtain ⟨hkeys, hprev⟩ := hinv
  constructor
  · intro p hp
    replace hp : p ∈ (match a.prev_action, reward with
      | some _, some r => QAgent.observe_reward a obs r
      | _, _ => a).value_function := hp
    cases hpa : a.prev_action with
    | none =>
      rw [hpa] at hp
      cases reward <;> exact hkeys p hp
    | some pa =>
      rw [hpa] at hp
      cases reward with
      | none => exact hkeys p hp
      | some r =>
        cases hpo : a.prev_observation with
        | none =>
          have hcontra := hprev hpo
          rw [hpa] at hcontra
          exact absurd hcontra (by simp)
        | some po => exact observe_reward_keys a obs r po hpo hkeys p hp
  · intro hobs
    replace hobs : obs = none := hobs
    subst hobs
    rfl

/-- One act call preserves both agent invariants whenever it returns. -/
theorem act_inv {Obs Act : Type} [DecidableEq Obs] [DecidableEq Act]
    (a : QAgent Obs Act) (obs : Option Obs) (actions : List Act)
    (reward : Option ℚ) (i : ℕ) (res : Act × QAgent Obs Act)
    (hres : QAgent.act a obs actions reward i = some res)
    (hinv : AgentInv a) : AgentInv res.2 := by
  unfold QAgent.act at hres
  cases hb : QAgent.get_best_action a obs with
  | some b =>
    rw [hb] at hres
    simp only [Option.some_inj] at hres
    rw [← hres]
    exact force_act_inv a obs b reward hinv
  | none =>
    rw [hb] at hres
    cases actions with
    | nil => simp at hres
    | cons x xs =>
      simp only [Option.some_inj] at hres
      rw [← hres]
      exact force_act_inv a obs _ reward hinv

/-- Every public call preserves both agent invariants. -/
theorem execCall_inv {Obs Act : Type} [DecidableEq Obs] [DecidableEq Act]
    (a : QAgent Obs Act) (c : ACall Obs Act) (hinv : AgentInv a) :
    AgentInv (execCall a c) := by
  cases c with
  | getValue obs act =>
    show AgentInv (QAgent.get_value a obs act).2
    refine ⟨get_value_keys a obs act hinv.1, ?_⟩
    intro hobs
    rw [(get_value_fields a obs act).2]
    rw [(get_value_fields a obs act).1] at hobs
    exact hinv.2 hobs
  | act obs actions reward i =>
    show AgentInv (match QAgent.act a obs actions reward i with
      | none => a
      | some (_, a2) => a2)
    cases hres : QAgent.act a obs actions reward i with
    | none => exact hinv
    | some res => exact act_inv a obs actions reward i res hres hinv
  | forceAct obs act reward =>
    show AgentInv (QAgent.force_act a obs act reward).2
    exact force_act_inv a obs act reward hinv

/-- Any sequence of public calls preserves both agent invariants. -/
theorem runCalls_inv {Obs Act : Type} [DecidableEq Obs] [DecidableEq Act]
    (a : QAgent Obs Act) (calls : List (ACall Obs Act)) (hinv : AgentInv a) :
    AgentInv (runCalls a calls) := by
  induction calls generalizing a with
  | nil => exact hinv
  | cons c rest ih => exact ih (execCall a c) (execCall_inv a c hinv)

/-- C8: starting from a fresh TabularQLearningAgent, no sequence of
get_value, act and force_act calls — even ones passing the terminal
observation — ever puts an entry keyed by the terminal marker into the
value table. -/
theorem c8_theorem {Obs Act : Type} [DecidableEq Obs] [DecidableEq Act]
    (alpha gamma : ℚ) (calls : List (ACall Obs Act)) :
    ∀ p ∈ (runCalls (QAgent.init alpha gamma) calls).value_function,
      p.1 ≠ (none : Option Obs) :=
  (runCalls_inv (QAgent.init alpha gamma) calls
    ⟨by simp [QAgent.init], fun _ => rfl⟩).1

/-- C8 (witness): a two-call trace that records a transition and then
feeds the terminal observation with a reward; the resulting single table
entry is keyed by observation 0, not by the terminal marker. -/
theorem c8_witness :
    ((some 0, [(some 1, (3 : ℚ))]) : Option ℕ × List (Option ℕ × ℚ)) ∈
      (runCalls (QAgent.init 1 0 : QAgent ℕ ℕ)
        [ACall.forceAct (some 0) 1 none,
         ACall.forceAct none 2 (some 3)]).value_function ∧
    (some 0 : Option ℕ) ≠ none := by
  have hmem : ((some 0, [(some 1, (3 : ℚ))]) : Option ℕ × List (Option ℕ × ℚ)) ∈
      (runCalls (QAgent.init 1 0 : QAgent ℕ ℕ)
        [ACall.forceAct (some 0) 1 none,
         ACall.forceAct none 2 (some 3)]).value_function := by
    norm_num [runCalls, execCall, QAgent.init, QAgent.force_act,
      QAgent.observe_reward, QAgent.get_value, QAgent.get_best_value,
      QAgent.get_best_action, QAgent.get_valued_actions, List.foldl]
  exact ⟨hmem, c8_theorem 1 0
    [ACall.forceAct (some 0) 1 none, ACall.forceAct none 2 (some 3)]
    (some 0, [(some 1, (3 : ℚ))]) hmem⟩

/-! ## C10: the read side effect of get_value -/

/-- Writing a key always leaves it among the keys. -/
theorem key_mem_keys_setA {κ α : Type} [DecidableEq κ]
    (m : List (κ × α)) (key : κ) (val : α) :
    key ∈ (setA m key val).map Prod.fst := by
  induction m with
  | nil => simp
  | cons q rest ih =>
    obtain ⟨k, v⟩ := q
    by_cases h : k = key <;> simp [h, ih]

/-- C10: when the observation already has a table entry and the action has
none, get_value returns 0 but also inserts a 0 entry for that action, so
the action subsequently appears among the valued actions of that
observation (and is therefore a candidate for get_best_action, which
maximises over exactly that list). -/
theorem c10_theorem {Obs Act : Type} [DecidableEq Obs] [DecidableEq Act]
    (a : QAgent Obs Act) (obs : Option Obs) (b : Act)
    (inner : List (Option Act × ℚ))
    (hobs : lookupA a.value_function obs = some inner)
    (hmiss : lookupA inner (some b) = none) :
    (QAgent.get_value a obs (some b)).1 = 0 ∧
    lookup2 (QAgent.get_value a obs (some b)).2.value_function obs (some b)
      = some 0 ∧
    some b ∈ QAgent.get_valued_actions
      (QAgent.get_value a obs (some b)).2 obs := by
  have hv : QAgent.get_value a obs (some b)
      = (0, { a with value_function := setA a.value_function obs (setA inner (some b) 0) }) := by
    unfold QAgent.get_value
    simp only [hobs]
    simp only [hmiss]
  refine ⟨by rw [hv], ?_, ?_⟩
  · rw [hv]
    unfold lookup2
    rw [lookupA_setA_self]
    simp only [Option.some_bind]
    rw [lookupA_setA_self]
  · rw [hv]
    unfold QAgent.get_valued_actions
    simp only [lookupA_setA_self]
    exact key_mem_keys_setA inner (some b) 0

/-- C10 (witness): observation 0 values only action 1; reading action 5
returns 0 and makes action 5 valued at observation 0. -/
theorem c10_witness :
    lookupA c10agent.value_function (some 0) = some [(some 1, (2 : ℚ))] ∧
    lookupA [(some 1, (2 : ℚ))] (some 5) = none ∧
    ((QAgent.get_value c10agent (some 0) (some 5)).1 = 0 ∧
    lookup2 (QAgent.get_value c10agent (some 0) (some 5)).2.value_function
        (some 0) (some 5) = some 0 ∧
    some 5 ∈ QAgent.get_valued_actions
      (QAgent.get_value c10agent (some 0) (some 5)).2 (some 0)) :=
  ⟨by decide, by decide,
    c10_theorem c10agent (some 0) 5 [(some 1, 2)] (by decide) (by decide)⟩

/-! ## C9: parameter space splitting -/

/-- The slice of worker i runs between consecutive boundaries. -/
theorem get_parameters_eq {β : Type} (l : List β) (N i : ℕ) :
    get_parameters l N i
      = (l.drop (sliceStart l.length N i)).take
          (sliceStart l.length N (i + 1) - sliceStart l.length N i) := rfl

/-- Consecutive slice boundaries are ordered. -/
theorem sliceStart_mono (t N i : ℕ) :
    sliceStart t N i ≤ sliceStart t N (i + 1) := by
  unfold sliceStart
  exact Nat.add_le_add (Nat.mul_le_mul le_rfl (Nat.le_succ i))
    (min_le_min (Nat.le_succ i) le_rfl)

/-- The boundary after the last worker is the total size. -/
theorem sliceStart_last (t N : ℕ) (hN : 0 < N) : sliceStart t N N = t := by
  unfold sliceStart
  have key := Nat.div_add_mod t N
  have hr : t % N < N := Nat.mod_lt _ hN
  calc t / N * N + min N (t % N) = t / N * N + t % N := by
        rw [min_eq_right hr.le]
    _ = N * (t / N) + t % N := by rw [mul_comm]
    _ = t := key

/-- Slice boundaries are monotone. -/
theorem sliceStart_mono_le (t N : ℕ) {i j : ℕ} (h : i ≤ j) :
    sliceStart t N i ≤ sliceStart t N j := by
  induction h with
  | refl => exact le_rfl
  | @step m hm ih => exact le_trans ih (sliceStart_mono t N m)

/-- Every boundary of a real worker stays within the collection. -/
theorem sliceStart_le (t N i : ℕ) (hN : 0 < N) (hi : i ≤ N) :
    sliceStart t N i ≤ t := by
  have h1 : sliceStart t N i ≤ sliceStart t N N := sliceStart_mono_le t N hi
  rw [sliceStart_last t N hN] at h1
  exact h1

/-- Gluing a slice back onto the remainder of the list. -/
theorem slice_append {β : Type} (l : List β) (s e : ℕ) (hse : s ≤ e) :
    (l.drop s).take (e - s) ++ l.drop e = l.drop s := by
  have h : l.drop e = (l.drop s).drop (e - s) := by
    rw [List.drop_drop]
    congr 1
    omega
  rw [h, List.take_append_drop]

/-- The first K slices together with the tail after boundary K give back
the whole collection. -/
theorem flatten_slices {β : Type} (l : List β) (N : ℕ) (K : ℕ) :
    ((List.range K).map (fun i => get_parameters l N i)).flatten
      ++ l.drop (sliceStart l.length N K) = l := by
  induction K with
  | zero => simp [sliceStart]
  | succ k ih =>
    rw [List.range_succ, List.map_append, List.flatten_append]
    simp only [List.map_cons, List.map_nil, List.flatten_cons, List.flatten_nil,
      List.append_nil]
    rw [List.append_assoc, get_parameters_eq,
      slice_append l _ _ (sliceStart_mono l.length N k), ih]

/-- The length of the slice between consecutive boundaries, for an
abstract chunk size and remainder. -/
theorem boundary_diff (c r i len : ℕ)
    (hle : c * i + c + min (i + 1) r ≤ len) :
    min (c * i + c + min (i + 1) r - (c * i + min i r)) (len - (c * i + min i r))
      = c + if i < r then 1 else 0 := by
  by_cases hir : i < r <;> simp only [hir, if_true, if_false] <;> omega

/-- C9: for a positive worker count, the per-worker slices are contiguous,
in order, disjoint and cover the whole collection (their concatenation in
worker order is the collection), each slice running from
chunk*i + min(i, remainder) to chunk*(i+1) + min(i+1, remainder); and the
first remainder workers get chunk+1 elements while the rest get chunk. -/
theorem c9_theorem {β : Type} (l : List β) (N : ℕ) (hN : 0 < N) :
    ((List.range N).map (fun i => get_parameters l N i)).flatten = l ∧
    (∀ i, i < N → (get_parameters l N i).length
        = l.length / N + if i < l.length % N then 1 else 0) := by
  constructor
  · have h := flatten_slices l N N
    rw [sliceStart_last l.length N hN, List.drop_length, List.append_nil] at h
    exact h
  · intro i hi
    have hle : sliceStart l.length N (i + 1) ≤ l.length :=
      sliceStart_le l.length N (i + 1) hN hi
    rw [get_parameters_eq, List.length_take, List.length_drop]
    unfold sliceStart at hle ⊢
    rw [Nat.mul_succ] at hle ⊢
    exact boundary_diff (l.length / N) (l.length % N) i l.length hle

/-- C9 (witness): three parameters over two workers: worker 0 receives two
elements, worker 1 one, and together they are the collection. -/
theorem c9_witness :
    0 < 2 ∧
    (((List.range 2).map (fun i => get_parameters [10, 20, 30] 2 i)).flatten
        = [10, 20, 30] ∧
    (∀ i, i < 2 → (get_parameters [10, 20, 30] 2 i).length
        = [10, 20, 30].length / 2
          + if i < [10, 20, 30].length % 2 then 1 else 0)) :=
  ⟨by decide, c9_theorem [10, 20, 30] 2 (by decide)⟩

end RL

